import Mathlib

/-!
Shallow embedding of the CSV engine of `johannschopplich/utils`
(`createCSV`, `escapeCSVValue`, `parseCSV` from the character-level
state-machine implementation in `src/csv.ts`), together with theorems
settling the frozen claims about it.

Strings are modelled as `List Char` (called `Str` below); JavaScript
`undefined`/`null` values are modelled by `Option`.
-/

set_option autoImplicit false

/-- Strings are modelled as lists of characters. -/
abbrev Str := List Char

/-- Abbreviation turning a Lean string literal into the `List Char` model. -/
def strL (s : String) : Str := s.data

/-- The set of characters stripped by JavaScript `String.prototype.trim`
(WhiteSpace and LineTerminator code points). -/
def isJSWhitespace (c : Char) : Bool :=
  c = ' ' || c = '\t' || c = '\n' || c = '\r' ||
  c.toNat = 11 || c.toNat = 12 ||
  c.toNat = 0xA0 || c.toNat = 0x1680 ||
  (0x2000 ≤ c.toNat && c.toNat ≤ 0x200A) ||
  c.toNat = 0x2028 || c.toNat = 0x2029 ||
  c.toNat = 0x202F || c.toNat = 0x205F ||
  c.toNat = 0x3000 || c.toNat = 0xFEFF

/-- Embedding of JavaScript `s.trim()`: drop leading and trailing whitespace. -/
def jsTrim (s : Str) : Str :=
  ((s.dropWhile isJSWhitespace).reverse.dropWhile isJSWhitespace).reverse

/-- Embedding of `stringValue.replaceAll('"', '""')`. -/
def doubleQuotes : Str → Str
  | [] => []
  | c :: rest => if c = '"' then '"' :: '"' :: doubleQuotes rest else c :: doubleQuotes rest

/-- Embedding of `escapeCSVValue` (src/csv.ts): `null`/`undefined` becomes the
empty string; a value is quoted when `quoteAll` is set or its text contains
the delimiter, a quote, `\n` or `\r`; quoting doubles every inner quote and
wraps the text in one quote character on each side. -/
def escapeCSVValue (value : Option Str) (delimiter : Char) (quoteAll : Bool) : Str :=
  match value with
  | none => []
  | some s =>
    if quoteAll || s.contains delimiter || s.contains '"' || s.contains '\n' || s.contains '\r'
    then '"' :: doubleQuotes s ++ ['"']
    else s

/-- Embedding of JavaScript `Array.prototype.join` with a one-character
separator: empty list gives the empty string, otherwise the pieces are
concatenated with the separator between consecutive pieces. -/
def joinSep (sep : Char) : List Str → Str
  | [] => []
  | [s] => s
  | s :: rest => s ++ sep :: joinSep sep rest

/-- An input row for serialization: a mapping from column name to optional
value (`none` models a missing key or a `null`/`undefined` value). -/
abbrev RowIn := Str → Option Str

/-- The coerced text of an optional value: `null`/`undefined` serialize as
the empty string. -/
def coerceVal (v : Option Str) : Str := v.getD []

/-- Embedding of `createCSV` (src/csv.ts): escape the projection of each row
onto `columns`, join fields with the delimiter, optionally prepend the
escaped header line, and join all lines with `\n`. -/
def createCSV (data : List RowIn) (columns : List Str)
    (delimiter : Char) (addHeader : Bool) (quoteAll : Bool) : Str :=
  let rows := data.map fun r =>
    joinSep delimiter (columns.map fun c => escapeCSVValue (r c) delimiter quoteAll)
  let allRows :=
    if addHeader then
      joinSep delimiter (columns.map fun c => escapeCSVValue (some c) delimiter quoteAll) :: rows
    else rows
  joinSep '\n' allRows

/-- State of the character-level tokenizer of `parseCSV`: the `skip` flag
models the `i++` lookahead consumption of the source loop, `inQuotes` the
quote mode, `field`/`row`/`rows` the accumulators. -/
structure TState where
  skip : Bool
  inQuotes : Bool
  field : Str
  row : List Str
  rows : List (List Str)
  deriving Repr, DecidableEq

/-- Embedding of `trimValues ? currentField.trim() : currentField`. -/
def storeField (trim : Bool) (f : Str) : Str := if trim then jsTrim f else f

/-- Close the current field: push its (optionally trimmed) text onto the
current row. -/
def pushField (trim : Bool) (st : TState) : TState :=
  { st with field := [], row := st.row ++ [storeField trim st.field] }

/-- Close the current row: push field and row, and start fresh. -/
def pushRow (trim : Bool) (st : TState) : TState :=
  { st with field := [], row := [], rows := st.rows ++ [st.row ++ [storeField trim st.field]] }

/-- The character loop of `parseCSV` (src/csv.ts lines 133-168), one character
at a time with one character of lookahead; a branch that consumes the
lookahead character sets `skip`, which drops the next character. -/
def scan (delimiter : Char) (trim : Bool) : Str → TState → TState
  | [], st => st
  | c :: cs, st =>
    if st.skip then
      scan delimiter trim cs { st with skip := false }
    else if c = '"' then
      if st.inQuotes then
        if cs.head? = some '"' then
          scan delimiter trim cs { st with field := st.field ++ ['"'], skip := true }
        else
          scan delimiter trim cs { st with inQuotes := false }
      else
        scan delimiter trim cs { st with inQuotes := true }
    else if c = delimiter ∧ st.inQuotes = false then
      scan delimiter trim cs (pushField trim st)
    else if c = '\n' ∧ st.inQuotes = false then
      scan delimiter trim cs (pushRow trim st)
    else if c = '\r' ∧ cs.head? = some '\n' ∧ st.inQuotes = false then
      scan delimiter trim cs { pushRow trim st with skip := true }
    else
      scan delimiter trim cs { st with field := st.field ++ [c] }

/-- The initial tokenizer state. -/
def initState : TState := ⟨false, false, [], [], []⟩

/-- End-of-input handling of `parseCSV` (lines 170-174): flush the last field
and row when the current field is non-empty (truthy) or the current row
already has a field. -/
def flushScan (trim : Bool) (st : TState) : List (List Str) :=
  if st.field.isEmpty && st.row.isEmpty then st.rows
  else st.rows ++ [st.row ++ [storeField trim st.field]]

/-- Tokenization stage of `parseCSV`: raw rows of raw field texts. -/
def tokenizeCSV (delimiter : Char) (trim : Bool) (csv : Str) : List (List Str) :=
  flushScan trim (scan delimiter trim csv initState)

/-- A parsed row: an ordered name-to-value mapping, as built by
`Object.fromEntries`. -/
abbrev Row := List (Str × Str)

/-- One step of JavaScript object construction: assigning to an existing key
overwrites its value in place, a new key is appended. -/
def setEntry (l : Row) (k v : Str) : Row :=
  if l.any fun q => decide (q.1 = k) then
    l.map fun q => if q.1 = k then (k, v) else q
  else
    l ++ [(k, v)]

/-- Embedding of `Object.fromEntries`. -/
def fromEntries (l : List (Str × Str)) : Row :=
  l.foldl (fun acc p => setEntry acc p.1 p.2) []

/-- Embedding of `headers.map((header, index) => [header, index < values.length
? values[index] : ''])`: pair each header with the field at the same index,
or with the empty string when the row ran out of fields. -/
def zipPad : List Str → List Str → List (Str × Str)
  | [], _ => []
  | h :: hs, [] => (h, []) :: zipPad hs []
  | h :: hs, v :: vs => (h, v) :: zipPad hs vs

/-- Row assembly of `parseCSV` (line 185-187). -/
def buildRow (headers values : List Str) : Row :=
  fromEntries (zipPad headers values)

/-- The blank-row test of line 183: keep a row when some raw field text has a
non-empty trim. -/
def keepRow (row : List Str) : Bool :=
  row.any fun f => !(jsTrim f).isEmpty

/-- Row-assembly stage of `parseCSV` (lines 176-188): a lone header (or
nothing) gives an empty table; otherwise blank data rows are dropped and the
remaining rows are paired with the header names. -/
def assembleTable (rows : List (List Str)) : List Row :=
  if rows.length ≤ 1 then []
  else ((rows.drop 1).filter keepRow).map (buildRow (rows.headD []))

/-- Embedding of `parseCSV` (src/csv.ts): `undefined`/`null` input or input
with an empty trim returns the empty table, otherwise the text is tokenized
and assembled. Defaults in the source are `delimiter = ','`,
`trimValues = true`. -/
def parseCSV : Option Str → Char → Bool → List Row
  | none, _, _ => []
  | some s, delimiter, trim =>
    if jsTrim s = [] then []
    else assembleTable (tokenizeCSV delimiter trim s)

/-- A field text avoiding the delimiter, the quote character, `\n` and `\r`. -/
def cleanStr (delimiter : Char) (s : Str) : Bool :=
  s.all fun c => !(c = delimiter || c = '"' || c = '\n' || c = '\r')

/-- Whether an escaped output is wrapped in quotes: it has length at least two
and starts and ends with the quote character. -/
def isQuoted (s : Str) : Bool :=
  decide (2 ≤ s.length ∧ s.head? = some '"' ∧ s.getLast? = some '"')

/-- Strip one outer pair of quotes, when present. -/
def stripOuter (s : Str) : Str :=
  if isQuoted s then (s.drop 1).dropLast else s

/-- Embedding of `replaceAll('""', '"')`: undouble quote pairs left to right. -/
def undouble : Str → Str
  | [] => []
  | [c] => [c]
  | c1 :: c2 :: rest =>
    if c1 = '"' ∧ c2 = '"' then '"' :: undouble rest
    else c1 :: undouble (c2 :: rest)

/-- The inverse transform of the escaper: strip the outer quote pair if
present, then undouble internal quotes. -/
def unescapeCSVValue (s : Str) : Str := undouble (stripOuter s)

/-- Every quote character in the string occurs as part of a doubled pair. -/
def quotesDoubled : Str → Bool
  | [] => true
  | [c] => if c = '"' then false else true
  | c1 :: c2 :: rest =>
    if c1 = '"' then (if c2 = '"' then quotesDoubled rest else false)
    else quotesDoubled (c2 :: rest)

/-! ### Step lemmas for the tokenizer -/

theorem scan_nil (d : Char) (t : Bool) (st : TState) : scan d t [] st = st := rfl

theorem scan_cons_skip (d : Char) (t : Bool) (c : Char) (cs : Str) (st : TState)
    (h : st.skip = true) :
    scan d t (c :: cs) st = scan d t cs { st with skip := false } := by
  simp [scan, h]

theorem scan_cons_quote_esc (d : Char) (t : Bool) (cs : Str) (st : TState)
    (h1 : st.skip = false) (h2 : st.inQuotes = true) (h3 : cs.head? = some '"') :
    scan d t ('"' :: cs) st =
      scan d t cs { st with field := st.field ++ ['"'], skip := true } := by
  simp [scan, h1, h2, h3]

theorem scan_cons_quote_close (d : Char) (t : Bool) (cs : Str) (st : TState)
    (h1 : st.skip = false) (h2 : st.inQuotes = true) (h3 : cs.head? ≠ some '"') :
    scan d t ('"' :: cs) st = scan d t cs { st with inQuotes := false } := by
  simp [scan, h1, h2, h3]

theorem scan_cons_quote_open (d : Char) (t : Bool) (cs : Str) (st : TState)
    (h1 : st.skip = false) (h2 : st.inQuotes = false) :
    scan d t ('"' :: cs) st = scan d t cs { st with inQuotes := true } := by
  simp [scan, h1, h2]

theorem scan_cons_delim (d : Char) (t : Bool) (cs : Str) (st : TState)
    (h1 : st.skip = false) (h2 : d ≠ '"') (h3 : st.inQuotes = false) :
    scan d t (d :: cs) st = scan d t cs (pushField t st) := by
  simp [scan, h1, h2, h3]

theorem scan_cons_newline (d : Char) (t : Bool) (cs : Str) (st : TState)
    (h1 : st.skip = false) (h2 : ('\n' : Char) ≠ d) (h3 : st.inQuotes = false) :
    scan d t ('\n' :: cs) st = scan d t cs (pushRow t st) := by
  simp [scan, h1, h2, h3]

theorem scan_cons_crlf (d : Char) (t : Bool) (cs : Str) (st : TState)
    (h1 : st.skip = false) (h2 : ('\r' : Char) ≠ d) (h3 : cs.head? = some '\n')
    (h4 : st.inQuotes = false) :
    scan d t ('\r' :: cs) st = scan d t cs { pushRow t st with skip := true } := by
  simp [scan, h1, h2, h3, h4]

theorem scan_cons_other (d : Char) (t : Bool) (c : Char) (cs : Str) (st : TState)
    (h1 : st.skip = false) (h2 : c ≠ '"')
    (h3 : ¬(c = d ∧ st.inQuotes = false))
    (h4 : ¬(c = '\n' ∧ st.inQuotes = false))
    (h5 : ¬(c = '\r' ∧ cs.head? = some '\n' ∧ st.inQuotes = false)) :
    scan d t (c :: cs) st = scan d t cs { st with field := st.field ++ [c] } := by
  simp [scan, h1, h2, h3, h4, h5]

theorem scan_cons_quoted (d : Char) (t : Bool) (c : Char) (cs : Str) (st : TState)
    (h1 : st.skip = false) (h2 : c ≠ '"') (h3 : st.inQuotes = true) :
    scan d t (c :: cs) st = scan d t cs { st with field := st.field ++ [c] } := by
  refine scan_cons_other d t c cs st h1 h2 ?_ ?_ ?_ <;> simp [h3]

theorem scan_skip_aux (d : Char) (t : Bool) :
    ∀ (l : Str) (st : TState),
      (scan d t l st).skip = false ∨ (l = [] ∧ scan d t l st = st) := by
  intro l
  induction l with
  | nil => intro st; exact Or.inr ⟨rfl, rfl⟩
  | cons c cs ih =>
    intro st
    by_cases hs : st.skip = true
    · rw [scan_cons_skip d t c cs st hs]
      rcases ih { st with skip := false } with h | ⟨hn, h⟩
      · exact Or.inl h
      · exact Or.inl (by rw [h])
    · have hs' : st.skip = false := by simpa using hs
      by_cases hq : c = '"'
      · subst hq
        by_cases hin : st.inQuotes = true
        · by_cases hhd : cs.head? = some '"'
          · rw [scan_cons_quote_esc d t cs st hs' hin hhd]
            rcases ih { st with field := st.field ++ ['"'], skip := true } with h | ⟨hn, h⟩
            · exact Or.inl h
            · subst hn; simp at hhd
          · rw [scan_cons_quote_close d t cs st hs' hin hhd]
            rcases ih { st with inQuotes := false } with h | ⟨hn, h⟩
            · exact Or.inl h
            · exact Or.inl (by rw [h]; exact hs')
        · have hin' : st.inQuotes = false := by simpa using hin
          rw [scan_cons_quote_open d t cs st hs' hin']
          rcases ih { st with inQuotes := true } with h | ⟨hn, h⟩
          · exact Or.inl h
          · exact Or.inl (by rw [h]; exact hs')
      · by_cases hdl : c = d ∧ st.inQuotes = false
        · obtain ⟨rfl, hin⟩ := hdl
          rw [scan_cons_delim c t cs st hs' hq hin]
          rcases ih (pushField t st) with h | ⟨hn, h⟩
          · exact Or.inl h
          · exact Or.inl (by rw [h]; simpa [pushField] using hs')
        · by_cases hnl : c = '\n' ∧ st.inQuotes = false
          · obtain ⟨rfl, hin⟩ := hnl
            have hnd : ('\n' : Char) ≠ d := by
              intro h; exact hdl ⟨h, hin⟩
            rw [scan_cons_newline d t cs st hs' hnd hin]
            rcases ih (pushRow t st) with h | ⟨hn, h⟩
            · exact Or.inl h
            · exact Or.inl (by rw [h]; simpa [pushRow] using hs')
          · by_cases hcr : c = '\r' ∧ cs.head? = some '\n' ∧ st.inQuotes = false
            · obtain ⟨rfl, hhd, hin⟩ := hcr
              have hrd : ('\r' : Char) ≠ d := by
                intro h; exact hdl ⟨h, hin⟩
              rw [scan_cons_crlf d t cs st hs' hrd hhd hin]
              rcases ih { pushRow t st with skip := true } with h | ⟨hn, h⟩
              · exact Or.inl h
              · subst hn; simp at hhd
            · rw [scan_cons_other d t c cs st hs' hq hdl hnl hcr]
              rcases ih { st with field := st.field ++ [c] } with h | ⟨hn, h⟩
              · exact Or.inl h
              · exact Or.inl (by rw [h]; simpa using hs')

theorem scan_skip (d : Char) (t : Bool) (l : Str) (st : TState)
    (hs : st.skip = false) : (scan d t l st).skip = false := by
  rcases scan_skip_aux d t l st with h | ⟨hn, h⟩
  · exact h
  · rw [h]; exact hs

/-! ### Helper lemmas about trimming, joining, quoting -/

theorem jsTrim_nil : jsTrim [] = [] := rfl

theorem jsTrim_append_ws (l : Str) (c : Char) (h : isJSWhitespace c = true) :
    jsTrim (l ++ [c]) = jsTrim l := by
  unfold jsTrim
  rw [List.dropWhile_append]
  by_cases he : (l.dropWhile isJSWhitespace).isEmpty
  · rw [if_pos he]
    rw [List.isEmpty_iff] at he
    rw [he]
    simp [List.dropWhile, h]
  · rw [if_neg he]
    rw [List.reverse_append]
    simp [List.dropWhile, h]

theorem jsTrim_all_ws (s : Str) (h : jsTrim s = []) : ∀ c ∈ s, isJSWhitespace c = true := by
  unfold jsTrim at h
  have h1 : (s.dropWhile isJSWhitespace).reverse.dropWhile isJSWhitespace = [] := by
    simpa using congrArg List.reverse h
  rw [List.dropWhile_eq_nil_iff] at h1
  have h2 : ∀ c ∈ s.dropWhile isJSWhitespace, isJSWhitespace c = true := by
    intro c hc
    exact h1 c (List.mem_reverse.mpr hc)
  intro c hc
  rw [← List.takeWhile_append_dropWhile (p := isJSWhitespace) (l := s)] at hc
  rcases List.mem_append.mp hc with hc | hc
  · exact List.mem_takeWhile_imp hc
  · exact h2 c hc

theorem jsTrim_head_not_ws (c : Char) (t : Str) (h : jsTrim (c :: t) = c :: t) :
    isJSWhitespace c = false := by
  by_contra hw
  have hw' : isJSWhitespace c = true := by simpa using hw
  have hlen : (jsTrim (c :: t)).length ≤ t.length := by
    unfold jsTrim
    have h1 : (c :: t).dropWhile isJSWhitespace = t.dropWhile isJSWhitespace := by
      simp [List.dropWhile, hw']
    rw [h1]
    have h2 := (t.dropWhile isJSWhitespace).reverse.dropWhile_sublist isJSWhitespace
    have h3 := h2.length_le
    have h4 := (t.dropWhile_sublist isJSWhitespace).length_le
    simpa using le_trans (by simpa using h3) h4
  rw [h] at hlen
  simp only [List.length_cons] at hlen
  omega

theorem joinSep_cons (sep : Char) (s : Str) (rest : List Str) (h : rest ≠ []) :
    joinSep sep (s :: rest) = s ++ sep :: joinSep sep rest := by
  cases rest with
  | nil => exact absurd rfl h
  | cons x xs => rfl

theorem joinSep_mem (sep : Char) :
    ∀ (ls : List Str) (l : Str), l ∈ ls → ∀ c ∈ l, c ∈ joinSep sep ls := by
  intro ls
  induction ls with
  | nil => intro l hl; simp at hl
  | cons x xs ih =>
    intro l hl c hc
    cases xs with
    | nil =>
      have : l = x := by simpa using hl
      subst this
      simpa [joinSep] using hc
    | cons y ys =>
      rw [joinSep_cons sep x (y :: ys) (by simp)]
      rcases List.mem_cons.mp hl with rfl | hl
      · exact List.mem_append.mpr (Or.inl hc)
      · exact List.mem_append.mpr (Or.inr (List.mem_cons.mpr (Or.inr (ih l hl c hc))))

theorem doubleQuotes_no_lone (s : Str) : quotesDoubled (doubleQuotes s) = true := by
  induction s with
  | nil => rfl
  | cons c rest ih =>
    by_cases h : c = '"'
    · subst h; simpa [doubleQuotes, quotesDoubled] using ih
    · cases hd : doubleQuotes rest with
      | nil => simp [doubleQuotes, h, hd, quotesDoubled]
      | cons x xs =>
        simp only [doubleQuotes, if_neg h, hd, quotesDoubled]
        rw [← hd]
        exact ih

theorem undouble_cons_of_ne (c : Char) (l : Str) (h : c ≠ '"') :
    undouble (c :: l) = c :: undouble l := by
  cases l with
  | nil => rfl
  | cons x xs => simp [undouble, h]

theorem undouble_no_quote (s : Str) (h : ('"' : Char) ∉ s) : undouble s = s := by
  induction s with
  | nil => rfl
  | cons c rest ih =>
    have hc : c ≠ '"' := fun he => h (he ▸ List.mem_cons_self c rest)
    rw [undouble_cons_of_ne c rest hc, ih (fun hm => h (List.mem_cons.mpr (Or.inr hm)))]

theorem undouble_doubleQuotes (s : Str) : undouble (doubleQuotes s) = s := by
  induction s with
  | nil => rfl
  | cons c rest ih =>
    by_cases h : c = '"'
    · subst h
      show undouble ('"' :: '"' :: doubleQuotes rest) = '"' :: rest
      simpa [undouble] using ih
    · show undouble (if c = '"' then '"' :: '"' :: doubleQuotes rest else c :: doubleQuotes rest) = c :: rest
      rw [if_neg h, undouble_cons_of_ne c _ h, ih]

theorem isQuoted_wrap (l : Str) : isQuoted ('"' :: l ++ ['"']) = true := by
  unfold isQuoted
  rw [decide_eq_true_eq]
  refine ⟨?_, by simp, ?_⟩
  · have hl : ('"' :: l ++ ['"']).length = l.length + 2 := by simp
    omega
  · rw [show ('"' :: l ++ ['"']) = ('"' :: l) ++ ['"'] by simp]
    exact List.getLast?_concat _

theorem isQuoted_of_no_quote (s : Str) (h : s.contains '"' = false) : isQuoted s = false := by
  cases s with
  | nil => rfl
  | cons c t =>
    have hc : c ≠ '"' := by
      intro he
      subst he
      simp [List.contains_cons] at h
    unfold isQuoted
    simp [hc]

theorem stripOuter_wrap (l : Str) : stripOuter ('"' :: l ++ ['"']) = l := by
  unfold stripOuter
  rw [if_pos (by rw [isQuoted_wrap])]
  simp

/-- The quoting condition of `escapeCSVValue`. -/
def needsQuoting (s : Str) (d : Char) (qa : Bool) : Bool :=
  qa || s.contains d || s.contains '"' || s.contains '\n' || s.contains '\r'

theorem escapeCSVValue_some (s : Str) (d : Char) (qa : Bool) :
    escapeCSVValue (some s) d qa =
      (if needsQuoting s d qa then '"' :: doubleQuotes s ++ ['"'] else s) := rfl

example : strL "ab" = ['a', 'b'] := rfl

example :
    parseCSV (some (strL "name,age\nJohn,30\nJane,25")) ',' true =
      [[(strL "name", strL "John"), (strL "age", strL "30")],
       [(strL "name", strL "Jane"), (strL "age", strL "25")]] := by decide

example :
    createCSV [fun c => if c = strL "name" then some (strL "John, Jr.") else some (strL "30")]
      [strL "name", strL "age"] ',' true false =
      strL "name,age\n\"John, Jr.\",30" := by decide

example :
    parseCSV (some (strL "name,age\r\nJohn,30\r\nJane,25")) ',' true =
      [[(strL "name", strL "John"), (strL "age", strL "30")],
       [(strL "name", strL "Jane"), (strL "age", strL "25")]] := by decide

/-! ### Relating trimming and non-trimming runs of the tokenizer (for C5) -/

/-- Apply trimming to the already-stored fields of a state, leaving the
still-accumulating field untouched. -/
def trimmedSt (st : TState) : TState :=
  { st with row := st.row.map jsTrim, rows := st.rows.map (List.map jsTrim) }

theorem scan_trim (d : Char) :
    ∀ (cs : Str) (st : TState),
      scan d true cs (trimmedSt st) = trimmedSt (scan d false cs st) := by
  intro cs
  induction cs with
  | nil => intro st; rfl
  | cons c cs ih =>
    intro st
    have hskip : (trimmedSt st).skip = st.skip := rfl
    have hinq : (trimmedSt st).inQuotes = st.inQuotes := rfl
    by_cases hs : st.skip = true
    · rw [scan_cons_skip d true c cs (trimmedSt st) hs, scan_cons_skip d false c cs st hs]
      rw [show { trimmedSt st with skip := false } = trimmedSt { st with skip := false } from rfl]
      exact ih _
    · have hs' : st.skip = false := by simpa using hs
      by_cases hq : c = '"'
      · subst hq
        by_cases hin : st.inQuotes = true
        · by_cases hhd : cs.head? = some '"'
          · rw [scan_cons_quote_esc d true cs (trimmedSt st) hs' hin hhd,
              scan_cons_quote_esc d false cs st hs' hin hhd]
            exact ih { st with field := st.field ++ ['"'], skip := true }
          · rw [scan_cons_quote_close d true cs (trimmedSt st) hs' hin hhd,
              scan_cons_quote_close d false cs st hs' hin hhd]
            exact ih { st with inQuotes := false }
        · have hin' : st.inQuotes = false := by simpa using hin
          rw [scan_cons_quote_open d true cs (trimmedSt st) hs' hin',
            scan_cons_quote_open d false cs st hs' hin']
          exact ih { st with inQuotes := true }
      · by_cases hdl : c = d ∧ st.inQuotes = false
        · obtain ⟨rfl, hin⟩ := hdl
          rw [scan_cons_delim c true cs (trimmedSt st) hs' hq hin,
            scan_cons_delim c false cs st hs' hq hin]
          rw [show pushField true (trimmedSt st) = trimmedSt (pushField false st) by
            simp [pushField, trimmedSt, storeField]]
          exact ih _
        · by_cases hnl : c = '\n' ∧ st.inQuotes = false
          · obtain ⟨rfl, hin⟩ := hnl
            have hnd : ('\n' : Char) ≠ d := fun h => hdl ⟨h, hin⟩
            rw [scan_cons_newline d true cs (trimmedSt st) hs' hnd hin,
              scan_cons_newline d false cs st hs' hnd hin]
            rw [show pushRow true (trimmedSt st) = trimmedSt (pushRow false st) by
              simp [pushRow, trimmedSt, storeField]]
            exact ih _
          · by_cases hcr : c = '\r' ∧ cs.head? = some '\n' ∧ st.inQuotes = false
            · obtain ⟨rfl, hhd, hin⟩ := hcr
              have hrd : ('\r' : Char) ≠ d := fun h => hdl ⟨h, hin⟩
              rw [scan_cons_crlf d true cs (trimmedSt st) hs' hrd hhd hin,
                scan_cons_crlf d false cs st hs' hrd hhd hin]
              rw [show { pushRow true (trimmedSt st) with skip := true } =
                  trimmedSt { pushRow false st with skip := true } by
                simp [pushRow, trimmedSt, storeField]]
              exact ih _
            · rw [scan_cons_other d true c cs (trimmedSt st) hs' hq hdl hnl hcr,
                scan_cons_other d false c cs st hs' hq hdl hnl hcr]
              rw [show { trimmedSt st with field := (trimmedSt st).field ++ [c] } =
                  trimmedSt { st with field := st.field ++ [c] } from rfl]
              exact ih _

theorem flushScan_trim (st : TState) :
    flushScan true (trimmedSt st) = (flushScan false st).map (List.map jsTrim) := by
  unfold flushScan trimmedSt storeField
  by_cases hf : st.field.isEmpty
  · by_cases hr : st.row.isEmpty
    · have hr' : st.row = [] := List.isEmpty_iff.mp hr
      simp [hf, hr, hr']
    · have hr' : (st.row.map jsTrim).isEmpty = false := by
        cases hrr : st.row with
        | nil => rw [hrr] at hr; simp at hr
        | cons a l => simp [hrr]
      simp [hf, hr, hr']
  · have hf' : st.field.isEmpty = false := by simpa using hf
    simp [hf']

/-! ### Claim C2: unterminated-quote swallow policy -/

/-- C2: once the tokenizer is in the quoted state and no further quote
character occurs, every remaining character (delimiters and newlines
included) is appended verbatim to the current field and the state never
returns to unquoted; concretely, the malformed document of the claim parses
to a single row whose `name` field swallows the rest of the text and whose
`description` field is empty. -/
theorem C2_unterminated_quote_swallow :
    (∀ (d : Char) (t : Bool) (cs : Str) (st : TState),
      st.skip = false → st.inQuotes = true → ('"' : Char) ∉ cs →
      scan d t cs st = { st with field := st.field ++ cs }) ∧
    parseCSV
      (some (strL "name,description\n\"Product A,\"Description A\"\nProduct B,Description B"))
      ',' true =
      [[(strL "name", strL "Product A,Description A\nProduct B,Description B"),
        (strL "description", [])]] := by
  constructor
  · intro d t cs
    induction cs with
    | nil =>
      intro st h1 h2 h3
      simp [scan]
    | cons c cs ih =>
      intro st h1 h2 h3
      have hc : c ≠ '"' := fun he => h3 (he ▸ List.mem_cons_self c cs)
      rw [scan_cons_quoted d t c cs st h1 hc h2]
      rw [ih { st with field := st.field ++ [c] } h1 h2
        (fun hm => h3 (List.mem_cons.mpr (Or.inr hm)))]
      simp
  · decide

/-- Witness for C2 at a concrete remainder with no closing quote. -/
theorem C2_witness :
    (('"' : Char) ∉ strL "a,b\nc") ∧
    scan ',' true (strL "a,b\nc") ⟨false, true, strL "x", [], []⟩ =
      ⟨false, true, strL "xa,b\nc", [], []⟩ := by
  refine ⟨by decide, ?_⟩
  rw [C2_unterminated_quote_swallow.1 ',' true (strL "a,b\nc")
    ⟨false, true, strL "x", [], []⟩ rfl rfl (by decide)]
  decide

/-! ### Claim C4: parser totality at the boundary -/

theorem parseCSV_of_short (s : Str) (d : Char) (t : Bool)
    (h : (tokenizeCSV d t s).length ≤ 1) : parseCSV (some s) d t = [] := by
  simp only [parseCSV]
  by_cases h0 : jsTrim s = []
  · rw [if_pos h0]
  · rw [if_neg h0]
    unfold assembleTable
    rw [if_pos h]

/-- C4: the parser is a total function; `undefined`/`null` input and empty
input give the empty table, and any document whose tokenization produces at
most one row (hence no data rows) gives the empty table. -/
theorem C4_parser_totality :
    (∀ (d : Char) (t : Bool), parseCSV none d t = []) ∧
    (∀ (d : Char) (t : Bool), parseCSV (some []) d t = []) ∧
    (∀ (s : Str) (d : Char) (t : Bool),
      (tokenizeCSV d t s).length ≤ 1 → parseCSV (some s) d t = []) :=
  ⟨fun _ _ => rfl, fun _ _ => rfl, parseCSV_of_short⟩

/-- Witness for C4 on a concrete header-only document. -/
theorem C4_witness :
    (tokenizeCSV ',' true (strL "a,b")).length ≤ 1 ∧
    parseCSV (some (strL "a,b")) ',' true = [] :=
  ⟨by decide, C4_parser_totality.2.2 (strL "a,b") ',' true (by decide)⟩

/-! ### Claim C5: uniform trimming -/

/-- C5: with `trimValues` on, the tokenizer output is exactly the untrimmed
tokenizer output with every raw field trimmed — so trimming applies
uniformly, to quoted and unquoted fields alike; concretely the quoted field
`" x "` is stored as `"x"`. -/
theorem C5_uniform_trimming :
    (∀ (d : Char) (s : Str),
      tokenizeCSV d true s = (tokenizeCSV d false s).map (List.map jsTrim)) ∧
    parseCSV (some (strL "h\n\" x \"")) ',' true = [[(strL "h", strL "x")]] := by
  constructor
  · intro d s
    unfold tokenizeCSV
    rw [show (initState : TState) = trimmedSt initState from rfl]
    rw [scan_trim d s initState]
    exact flushScan_trim _
  · decide

/-! ### Claim C6: quoting necessity -/

/-- C6 counterexample: for the null value with `quoteAll` set, the claimed
iff demands a quoted output, but `escapeCSVValue` returns the unquoted empty
string. -/
theorem C6_counterexample :
    escapeCSVValue none ',' true = [] ∧
    isQuoted (escapeCSVValue none ',' true) = false := by
  exact ⟨rfl, rfl⟩

/-- C6 amended: for every non-null value, the output of `escapeCSVValue` is
wrapped in quotes exactly when `quoteAll` is set or the text contains the
delimiter, a quote character, `\n` or `\r`; the null value always yields the
unquoted empty string. -/
theorem C6_quoting_necessity :
    (∀ (s : Str) (d : Char) (qa : Bool),
      isQuoted (escapeCSVValue (some s) d qa) = needsQuoting s d qa) ∧
    (∀ (d : Char) (qa : Bool), escapeCSVValue none d qa = []) := by
  constructor
  · intro s d qa
    rw [escapeCSVValue_some]
    by_cases h : needsQuoting s d qa
    · rw [if_pos h, isQuoted_wrap, h]
    · have h' : needsQuoting s d qa = false := by simpa using h
      rw [if_neg h, h']
      have hnq : s.contains '"' = false := by
        unfold needsQuoting at h'
        simp only [Bool.or_eq_false_iff] at h'
        exact h'.1.1.2
      exact isQuoted_of_no_quote s hnq
  · intro d qa
    rfl

/-! ### Claim C7: escape round trip -/

/-- C7: stripping the outer quote pair (when present) and undoubling internal
quotes recovers the coerced text of any value from its escaped form; and a
quoted output always has the shape of one leading quote, the quote-doubled
text, and one trailing quote, with every internal quote doubled. -/
theorem C7_escape_round_trip :
    ∀ (v : Option Str) (d : Char) (qa : Bool),
      unescapeCSVValue (escapeCSVValue v d qa) = coerceVal v ∧
      (isQuoted (escapeCSVValue v d qa) = true →
        escapeCSVValue v d qa = '"' :: doubleQuotes (coerceVal v) ++ ['"'] ∧
        quotesDoubled (doubleQuotes (coerceVal v)) = true) := by
  intro v d qa
  match v with
  | none =>
    refine ⟨rfl, fun h => ?_⟩
    exact absurd h (by simp [escapeCSVValue, isQuoted])
  | some s =>
    rw [escapeCSVValue_some]
    by_cases h : needsQuoting s d qa
    · rw [if_pos h]
      refine ⟨?_, fun _ => ⟨rfl, doubleQuotes_no_lone s⟩⟩
      unfold unescapeCSVValue
      rw [stripOuter_wrap, undouble_doubleQuotes]
      rfl
    · rw [if_neg h]
      have h' : needsQuoting s d qa = false := by simpa using h
      have hnq : s.contains '"' = false := by
        unfold needsQuoting at h'
        simp only [Bool.or_eq_false_iff] at h'
        exact h'.1.1.2
      have hmem : ('"' : Char) ∉ s := by
        intro hm
        have := List.elem_eq_true_of_mem hm
        rw [show List.contains s '"' = List.elem '"' s from rfl, this] at hnq
        exact Bool.true_eq_false.mp hnq
      refine ⟨?_, fun hq => absurd hq (by rw [isQuoted_of_no_quote s hnq]; simp)⟩
      unfold unescapeCSVValue stripOuter
      rw [isQuoted_of_no_quote s hnq]
      simp only [Bool.false_eq_true, if_false]
      exact undouble_no_quote s hmem

/-- Witness for C7 at a value whose text needs quoting. -/
theorem C7_witness :
    isQuoted (escapeCSVValue (some (strL "x,\"y")) ',' false) = true ∧
    unescapeCSVValue (escapeCSVValue (some (strL "x,\"y")) ',' false) = strL "x,\"y" ∧
    escapeCSVValue (some (strL "x,\"y")) ',' false =
      '"' :: doubleQuotes (strL "x,\"y") ++ ['"'] :=
  ⟨by decide, (C7_escape_round_trip (some (strL "x,\"y")) ',' false).1,
    ((C7_escape_round_trip (some (strL "x,\"y")) ',' false).2 (by decide)).1⟩

/-! ### Blank-row elision lemmas (for C8 and C10) -/

theorem keepRow_blank (row : List Str) (h : ∀ f ∈ row, jsTrim f = []) :
    keepRow row = false := by
  unfold keepRow
  rw [List.any_eq_false]
  intro f hf
  rw [h f hf]
  simp

theorem assembleTable_insert_blank (rows1 rows2 : List (List Str)) (blank : List Str)
    (h1 : rows1 ≠ []) (h2 : ∀ f ∈ blank, jsTrim f = []) :
    assembleTable (rows1 ++ blank :: rows2) = assembleTable (rows1 ++ rows2) := by
  cases rows1 with
  | nil => exact absurd rfl h1
  | cons hd tl =>
    have hkb : keepRow blank = false := keepRow_blank blank h2
    by_cases h0 : tl = [] ∧ rows2 = []
    · obtain ⟨rfl, rfl⟩ := h0
      simp [assembleTable, hkb]
    · have h0' : ¬(tl ++ rows2).length = 0 := by
        rw [List.length_eq_zero, List.append_eq_nil]
        exact h0
      rw [List.length_append] at h0'
      unfold assembleTable
      rw [if_neg (by simp only [List.cons_append, List.length_cons, List.length_append]; omega),
        if_neg (by simp only [List.cons_append, List.length_cons, List.length_append]; omega)]
      simp only [List.cons_append, List.headD_cons, List.drop_succ_cons, List.drop_zero]
      rw [List.filter_append, List.filter_cons_of_neg (by rw [hkb]; simp), ← List.filter_append]

theorem assembleTable_append_blank (rows : List (List Str)) (blank : List Str)
    (h : ∀ f ∈ blank, jsTrim f = []) :
    assembleTable (rows ++ [blank]) = assembleTable rows := by
  cases rows with
  | nil => simp [assembleTable]
  | cons hd tl =>
    have h2 := assembleTable_insert_blank (hd :: tl) [] blank (by simp) h
    simpa using h2

/-! ### Claim C8: blank-row elision -/

/-- C8: inserting a data row whose raw field texts all trim to empty does not
change the assembled table (blank rows are dropped), while the header row is
used even when blank; concretely the blank lines of
`"name,age\nJohn,30\n\nJane,25\n\n"` are elided and a document with a blank
first line keeps that blank header. -/
theorem C8_blank_row_elision :
    (∀ (rows1 rows2 : List (List Str)) (blank : List Str), rows1 ≠ [] →
      (∀ f ∈ blank, jsTrim f = []) →
      assembleTable (rows1 ++ blank :: rows2) = assembleTable (rows1 ++ rows2)) ∧
    parseCSV (some (strL "name,age\nJohn,30\n\nJane,25\n\n")) ',' true =
      [[(strL "name", strL "John"), (strL "age", strL "30")],
       [(strL "name", strL "Jane"), (strL "age", strL "25")]] ∧
    parseCSV (some (strL "\nx,y")) ',' true = [[([], strL "x")]] := by
  refine ⟨assembleTable_insert_blank, by decide, by decide⟩

/-- Witness for C8 at a concrete blank row between two data rows. -/
theorem C8_witness :
    (([[strL "a"]] : List (List Str)) ≠ []) ∧
    (∀ f ∈ [strL " "], jsTrim f = []) ∧
    assembleTable ([[strL "a"]] ++ [strL " "] :: [[strL "b"]]) =
      assembleTable ([[strL "a"]] ++ [[strL "b"]]) :=
  ⟨by decide, by decide,
    C8_blank_row_elision.1 [[strL "a"]] [[strL "b"]] [strL " "] (by decide) (by decide)⟩

/-! ### Claim C9: serializer line structure -/

theorem joinSep_append_last (sep : Char) :
    ∀ (ls : List Str) (l : Str), ls ≠ [] →
      joinSep sep (ls ++ [l]) = joinSep sep ls ++ sep :: l := by
  intro ls
  induction ls with
  | nil => intro l h; exact absurd rfl h
  | cons x xs ih =>
    intro l _
    cases xs with
    | nil => rfl
    | cons y ys =>
      rw [List.cons_append, joinSep_cons sep x ((y :: ys) ++ [l]) (by simp),
        ih l (by simp), joinSep_cons sep x (y :: ys) (by simp)]
      simp

/-- C9: with an empty row sequence, `createCSV` returns exactly the escaped
header line when `addHeader` is set and the empty string otherwise; and
appending one row to the input appends exactly one `\n` followed by that
row's escaped line (so lines are joined by single newlines and nothing
follows the last line). -/
theorem C9_serializer_line_structure :
    (∀ (columns : List Str) (d : Char) (qa : Bool),
      createCSV [] columns d true qa =
        joinSep d (columns.map fun c => escapeCSVValue (some c) d qa)) ∧
    (∀ (columns : List Str) (d : Char) (qa : Bool),
      createCSV [] columns d false qa = []) ∧
    (∀ (data : List RowIn) (r : RowIn) (columns : List Str) (d : Char) (qa : Bool),
      createCSV (data ++ [r]) columns d true qa =
        createCSV data columns d true qa ++ '\n' ::
          joinSep d (columns.map fun c => escapeCSVValue (r c) d qa)) ∧
    (∀ (data : List RowIn) (r : RowIn) (columns : List Str) (d : Char) (qa : Bool),
      data ≠ [] →
      createCSV (data ++ [r]) columns d false qa =
        createCSV data columns d false qa ++ '\n' ::
          joinSep d (columns.map fun c => escapeCSVValue (r c) d qa)) := by
  refine ⟨fun columns d qa => rfl, fun columns d qa => rfl, ?_, ?_⟩
  · intro data r columns d qa
    unfold createCSV
    simp only [if_pos rfl, List.map_append, List.map_cons, List.map_nil]
    rw [show ∀ (h : Str) (ls : List Str) (x : Str), h :: (ls ++ [x]) = (h :: ls) ++ [x] from
      fun h ls x => rfl]
    exact joinSep_append_last '\n' _ _ (by simp)
  · intro data r columns d qa hne
    unfold createCSV
    simp only [if_neg (by simp : ¬False), List.map_append, List.map_cons, List.map_nil]
    exact joinSep_append_last '\n' _ _ (by simpa using hne)

/-- Witness for C9 appending a row to a one-row headerless serialization. -/
theorem C9_witness :
    (([fun _ => some (strL "u")] : List RowIn) ≠ []) ∧
    createCSV ([fun _ => some (strL "u")] ++ [fun _ => some (strL "v")])
      [strL "a"] ',' false false =
      createCSV [fun _ => some (strL "u")] [strL "a"] ',' false false ++ '\n' ::
        joinSep ',' ([strL "a"].map fun c =>
          escapeCSVValue ((fun _ => some (strL "v")) c) ',' false) :=
  ⟨by simp, C9_serializer_line_structure.2.2.2 [fun _ => some (strL "u")]
    (fun _ => some (strL "v")) [strL "a"] ',' false (by simp)⟩

/-! ### Object-construction lemmas (for C1 and C3) -/

theorem setEntry_notMem (l : Row) (k v : Str) (h : ∀ q ∈ l, q.1 ≠ k) :
    setEntry l k v = l ++ [(k, v)] := by
  unfold setEntry
  rw [if_neg]
  rw [List.any_eq_true]
  rintro ⟨q, hq, hqk⟩
  exact h q hq (of_decide_eq_true hqk)

theorem fromEntries_aux (l : List (Str × Str)) :
    ∀ acc : Row, (∀ p ∈ l, ∀ q ∈ acc, q.1 ≠ p.1) → (l.map Prod.fst).Nodup →
      l.foldl (fun a p => setEntry a p.1 p.2) acc = acc ++ l := by
  induction l with
  | nil => intro acc _ _; simp
  | cons p t ih =>
    intro acc hacc hnd
    rw [List.foldl_cons, setEntry_notMem acc p.1 p.2 (fun q hq => hacc p (by simp) q hq)]
    rw [List.map_cons, List.nodup_cons] at hnd
    rw [ih (acc ++ [(p.1, p.2)]) ?_ hnd.2]
    · simp
    · intro p' hp' q hq
      rcases List.mem_append.mp hq with hq | hq
      · exact hacc p' (List.mem_cons.mpr (Or.inr hp')) q hq
      · have hq' : q = (p.1, p.2) := by simpa using hq
        subst hq'
        intro he
        exact hnd.1 (he ▸ List.mem_map_of_mem Prod.fst hp')

theorem fromEntries_nodup (l : List (Str × Str)) (h : (l.map Prod.fst).Nodup) :
    fromEntries l = l := by
  unfold fromEntries
  simpa using fromEntries_aux l [] (by simp) h

theorem zipPad_fst : ∀ (hs vs : List Str), (zipPad hs vs).map Prod.fst = hs := by
  intro hs
  induction hs with
  | nil => intro vs; cases vs <;> rfl
  | cons h t ih =>
    intro vs
    cases vs with
    | nil => simp [zipPad, ih []]
    | cons v vs => simp [zipPad, ih vs]

theorem zipPad_length : ∀ (hs vs : List Str), (zipPad hs vs).length = hs.length := by
  intro hs vs
  have h := congrArg List.length (zipPad_fst hs vs)
  rw [List.length_map] at h
  exact h

theorem zipPad_getD :
    ∀ (hs vs : List Str) (i : Nat), i < hs.length →
      (zipPad hs vs).getD i ([], []) =
        (hs.getD i [], if i < vs.length then vs.getD i [] else []) := by
  intro hs
  induction hs with
  | nil => intro vs i hi; simp at hi
  | cons h t ih =>
    intro vs i hi
    cases vs with
    | nil =>
      cases i with
      | zero => rfl
      | succ i =>
        have hi' : i < t.length := by simpa using hi
        simpa [zipPad] using ih [] i hi'
    | cons v vs =>
      cases i with
      | zero => simp [zipPad]
      | succ i =>
        have hi' : i < t.length := by simpa using hi
        simpa [zipPad] using ih vs i hi'

theorem buildRow_nodup (hs vs : List Str) (h : hs.Nodup) :
    buildRow hs vs = zipPad hs vs := by
  unfold buildRow
  exact fromEntries_nodup _ (by rw [zipPad_fst]; exact h)

/-! ### Claim C3: row assembly arity -/

/-- C3 counterexample: with the duplicate header `a,a`, the parsed row keeps
a single key (later duplicate columns overwrite earlier ones), so a returned
row does not have `len(header)` keys and header name 0 is not mapped to raw
field 0. -/
theorem C3_counterexample :
    parseCSV (some (strL "a,a\nx,y")) ',' true = [[(strL "a", strL "y")]] ∧
    ((tokenizeCSV ',' true (strL "a,a\nx,y")).headD []).length = 2 ∧
    (parseCSV (some (strL "a,a\nx,y")) ',' true).all
      (fun row => row.length = ((tokenizeCSV ',' true (strL "a,a\nx,y")).headD []).length)
      = false := by
  exact ⟨by decide, by decide, by decide⟩

/-- C3 amended: when the parsed header names are pairwise distinct, every
returned row is the index-wise pairing of header names with raw fields
(missing trailing fields become empty, extra fields are ignored), so it has
exactly `len(header)` keys, and its `i`-th entry maps header `i` to raw
field `i`. -/
theorem C3_row_assembly_arity :
    (∀ (hs vs : List Str), hs.Nodup → buildRow hs vs = zipPad hs vs) ∧
    (∀ (hs vs : List Str), (zipPad hs vs).length = hs.length) ∧
    (∀ (hs vs : List Str) (i : Nat), i < hs.length →
      (zipPad hs vs).getD i ([], []) =
        (hs.getD i [], if i < vs.length then vs.getD i [] else [])) ∧
    (∀ (s : Str) (d : Char) (t : Bool) (row : Row),
      ((tokenizeCSV d t s).headD []).Nodup →
      row ∈ parseCSV (some s) d t →
      row.length = ((tokenizeCSV d t s).headD []).length) := by
  refine ⟨buildRow_nodup, zipPad_length, zipPad_getD, ?_⟩
  intro s d t row hnd hmem
  simp only [parseCSV] at hmem
  by_cases h0 : jsTrim s = []
  · rw [if_pos h0] at hmem
    simp at hmem
  · rw [if_neg h0] at hmem
    unfold assembleTable at hmem
    by_cases h1 : (tokenizeCSV d t s).length ≤ 1
    · rw [if_pos h1] at hmem
      simp at hmem
    · rw [if_neg h1] at hmem
      rcases List.mem_map.mp hmem with ⟨values, _, hrow⟩
      rw [← hrow, buildRow_nodup _ _ hnd, zipPad_length]

/-- Witness for C3 on a duplicate-free header. -/
theorem C3_witness :
    (((tokenizeCSV ',' true (strL "a,b\nx")).headD []).Nodup) ∧
    ([(strL "a", strL "x"), (strL "b", [])] ∈ parseCSV (some (strL "a,b\nx")) ',' true) ∧
    ([(strL "a", strL "x"), (strL "b", [])] : Row).length =
      ((tokenizeCSV ',' true (strL "a,b\nx")).headD []).length :=
  ⟨by decide, by decide,
    C3_row_assembly_arity.2.2.2 (strL "a,b\nx") ',' true
      [(strL "a", strL "x"), (strL "b", [])] (by decide) (by decide)⟩

/-! ### Appending a final newline (for C10) -/

theorem getLast?_tail_ne (c x : Char) (rest : Str)
    (h : (c :: rest).getLast? ≠ some x) : rest.getLast? ≠ some x := by
  cases rest with
  | nil => simp
  | cons r rs => rwa [List.getLast?_cons_cons] at h

theorem head?_append_one (rest : Str) (x c : Char) (h : rest.head? = some x) :
    (rest ++ [c]).head? = some x := by
  cases rest with
  | nil => simp at h
  | cons r rs => simpa using h

theorem head?_append_one_ne (rest : Str) (x c : Char) (hx : rest.head? ≠ some x)
    (hc : c ≠ x) : (rest ++ [c]).head? ≠ some x := by
  cases rest with
  | nil => simp [hc]
  | cons r rs => simpa using hx

theorem scan_append_newline (d : Char) (t : Bool) :
    ∀ (l1 : Str) (st : TState), l1.getLast? ≠ some '\r' →
      scan d t (l1 ++ ['\n']) st = scan d t ['\n'] (scan d t l1 st) := by
  intro l1
  induction l1 with
  | nil => intro st _; rfl
  | cons c rest ih =>
    intro st h
    have hrest : rest.getLast? ≠ some '\r' := getLast?_tail_ne c '\r' rest h
    simp only [List.cons_append]
    by_cases hs : st.skip = true
    · rw [scan_cons_skip d t c (rest ++ ['\n']) st hs, scan_cons_skip d t c rest st hs]
      exact ih _ hrest
    · have hs' : st.skip = false := by simpa using hs
      by_cases hq : c = '"'
      · subst hq
        by_cases hin : st.inQuotes = true
        · by_cases hhd : rest.head? = some '"'
          · rw [scan_cons_quote_esc d t (rest ++ ['\n']) st hs' hin
              (head?_append_one rest '"' '\n' hhd),
              scan_cons_quote_esc d t rest st hs' hin hhd]
            exact ih _ hrest
          · rw [scan_cons_quote_close d t (rest ++ ['\n']) st hs' hin
              (head?_append_one_ne rest '"' '\n' hhd (by decide)),
              scan_cons_quote_close d t rest st hs' hin hhd]
            exact ih _ hrest
        · have hin' : st.inQuotes = false := by simpa using hin
          rw [scan_cons_quote_open d t (rest ++ ['\n']) st hs' hin',
            scan_cons_quote_open d t rest st hs' hin']
          exact ih _ hrest
      · by_cases hdl : c = d ∧ st.inQuotes = false
        · obtain ⟨rfl, hin⟩ := hdl
          rw [scan_cons_delim c t (rest ++ ['\n']) st hs' hq hin,
            scan_cons_delim c t rest st hs' hq hin]
          exact ih _ hrest
        · by_cases hnl : c = '\n' ∧ st.inQuotes = false
          · obtain ⟨rfl, hin⟩ := hnl
            have hnd : ('\n' : Char) ≠ d := fun he => hdl ⟨he, hin⟩
            rw [scan_cons_newline d t (rest ++ ['\n']) st hs' hnd hin,
              scan_cons_newline d t rest st hs' hnd hin]
            exact ih _ hrest
          · by_cases hcr : c = '\r' ∧ st.inQuotes = false
            · obtain ⟨rfl, hin⟩ := hcr
              have hrd : ('\r' : Char) ≠ d := fun he => hdl ⟨he, hin⟩
              by_cases hhd : rest.head? = some '\n'
              · rw [scan_cons_crlf d t (rest ++ ['\n']) st hs' hrd
                  (head?_append_one rest '\n' '\n' hhd) hin,
                  scan_cons_crlf d t rest st hs' hrd hhd hin]
                exact ih _ hrest
              · cases rest with
                | nil => simp at h
                | cons r rs =>
                  have hhd' : (r :: rs).head? ≠ some '\n' := hhd
                  rw [scan_cons_other d t '\r' ((r :: rs) ++ ['\n']) st hs' hq
                    (fun hc => hdl ⟨hc.1, hc.2⟩) (by simp)
                    (fun hc => hhd' (by simpa using hc.2.1)),
                    scan_cons_other d t '\r' (r :: rs) st hs' hq
                    (fun hc => hdl ⟨hc.1, hc.2⟩) (by simp)
                    (fun hc => hhd' hc.2.1)]
                  exact ih _ hrest
            · have hcr5l : ¬('\r' = '\r' ∧ (rest ++ ['\n']).head? = some '\n' ∧
                  st.inQuotes = false) → True := fun _ => trivial
              rw [scan_cons_other d t c (rest ++ ['\n']) st hs' hq hdl hnl
                  (fun hc => hcr ⟨hc.1, hc.2.2⟩),
                scan_cons_other d t c rest st hs' hq hdl hnl
                  (fun hc => hcr ⟨hc.1, hc.2.2⟩)]
              exact ih _ hrest

theorem storeField_nil (t : Bool) : storeField t [] = [] := by cases t <;> rfl

theorem keepRow_append_nil (v : List Str) : keepRow (v ++ [[]]) = keepRow v := by
  unfold keepRow
  rw [List.any_append]
  simp [jsTrim]

theorem zipPad_append_nil : ∀ (hs vs : List Str), zipPad hs (vs ++ [[]]) = zipPad hs vs := by
  intro hs
  induction hs with
  | nil => intro vs; rfl
  | cons h t ih =>
    intro vs
    cases vs with
    | nil => simp [zipPad]
    | cons v vs => simpa [zipPad] using ih vs

theorem assembleTable_pad_last (rows : List (List Str)) (v : List Str) :
    assembleTable (rows ++ [v ++ [[]]]) = assembleTable (rows ++ [v]) := by
  cases rows with
  | nil => simp [assembleTable]
  | cons hd tl =>
    unfold assembleTable
    rw [if_neg (by simp only [List.cons_append, List.length_cons, List.length_append]; omega),
      if_neg (by simp only [List.cons_append, List.length_cons, List.length_append]; omega)]
    simp only [List.cons_append, List.headD_cons, List.drop_succ_cons, List.drop_zero]
    rw [List.filter_append, List.filter_append]
    by_cases hk : keepRow v = true
    · rw [List.filter_cons_of_pos (by rw [keepRow_append_nil]; exact hk),
        List.filter_cons_of_pos hk]
      simp only [List.filter_nil, List.map_append, List.map_cons, List.map_nil]
      rw [show buildRow hd (v ++ [[]]) = buildRow hd v by
        unfold buildRow; rw [zipPad_append_nil]]
    · rw [List.filter_cons_of_neg (by rw [keepRow_append_nil]; simpa using hk),
        List.filter_cons_of_neg (by simpa using hk)]

/-! ### Claim C10: a trailing newline adds no row -/

/-- C10: when the scan of the input ends in the unquoted state and the input
does not end with a lone carriage return, appending one `\n` leaves the
parse result unchanged — the parser never emits a trailing empty row for
input ending in a newline. -/
theorem C10_trailing_newline (s : Str) (d : Char) (t : Bool)
    (hq : (scan d t s initState).inQuotes = false)
    (hr : s.getLast? ≠ some '\r') :
    parseCSV (some (s ++ ['\n'])) d t = parseCSV (some s) d t := by
  have htrim : jsTrim (s ++ ['\n']) = jsTrim s := jsTrim_append_ws s '\n' (by decide)
  simp only [parseCSV]
  rw [htrim]
  by_cases h0 : jsTrim s = []
  · rw [if_pos h0, if_pos h0]
  · rw [if_neg h0, if_neg h0]
    have hskip : (scan d t s initState).skip = false := scan_skip d t s initState rfl
    have htok : scan d t (s ++ ['\n']) initState = scan d t ['\n'] (scan d t s initState) :=
      scan_append_newline d t s initState hr
    unfold tokenizeCSV
    rw [htok]
    set S := scan d t s initState with hS
    by_cases hd : d = '\n'
    · subst hd
      rw [scan_cons_delim '\n' t [] S hskip (by decide) hq, scan_nil]
      have hflush1 : flushScan t (pushField t S) =
          S.rows ++ [S.row ++ [storeField t S.field] ++ [storeField t []]] := by
        simp [flushScan, pushField]
      rw [hflush1, storeField_nil]
      by_cases hfe : (S.field.isEmpty && S.row.isEmpty) = true
      · rw [Bool.and_eq_true] at hfe
        have hf : S.field = [] := List.isEmpty_iff.mp hfe.1
        have hrw : S.row = [] := List.isEmpty_iff.mp hfe.2
        rw [show flushScan t S = S.rows by
          unfold flushScan; rw [if_pos (by rw [hf, hrw]; rfl)]]
        rw [hf, hrw, storeField_nil]
        refine assembleTable_append_blank S.rows [[], []] ?_
        intro f hf2
        rcases List.mem_cons.mp hf2 with rfl | hf2
        · rfl
        · have hf3 : f = [] := by simpa using hf2
          rw [hf3]; rfl
      · rw [show flushScan t S = S.rows ++ [S.row ++ [storeField t S.field]] by
          unfold flushScan; rw [if_neg hfe]]
        rw [show S.row ++ [storeField t S.field] ++ [[]] =
          (S.row ++ [storeField t S.field]) ++ [[]] from rfl]
        exact assembleTable_pad_last S.rows (S.row ++ [storeField t S.field])
    · rw [scan_cons_newline d t [] S hskip (fun he => hd he.symm) hq, scan_nil]
      have hflush1 : flushScan t (pushRow t S) =
          S.rows ++ [S.row ++ [storeField t S.field]] := by
        simp [flushScan, pushRow]
      rw [hflush1]
      by_cases hfe : (S.field.isEmpty && S.row.isEmpty) = true
      · rw [Bool.and_eq_true] at hfe
        have hf : S.field = [] := List.isEmpty_iff.mp hfe.1
        have hrw : S.row = [] := List.isEmpty_iff.mp hfe.2
        rw [show flushScan t S = S.rows by
          unfold flushScan; rw [if_pos (by rw [hf, hrw]; rfl)]]
        rw [hf, hrw, storeField_nil]
        refine assembleTable_append_blank S.rows [[]] ?_
        intro f hf2
        have hf3 : f = [] := by simpa using hf2
        rw [hf3]; rfl
      · rw [show flushScan t S = S.rows ++ [S.row ++ [storeField t S.field]] by
          unfold flushScan; rw [if_neg hfe]]

/-- Witness for C10 on a concrete document ending without a newline. -/
theorem C10_witness :
    ((scan ',' true (strL "a,b\nc") initState).inQuotes = false) ∧
    ((strL "a,b\nc").getLast? ≠ some '\x0d') ∧
    parseCSV (some (strL "a,b\nc" ++ ['\n'])) ',' true =
      parseCSV (some (strL "a,b\nc")) ',' true :=
  ⟨by decide, by decide,
    C10_trailing_newline (strL "a,b\nc") ',' true (by decide) (by decide)⟩

/-! ### Clean fields and the serializer-parser round trip (for C1) -/

/-- A character that is neither the default delimiter, nor a quote, nor a
line-break character. -/
def clean4 (c : Char) : Prop := c ≠ ',' ∧ c ≠ '"' ∧ c ≠ '\n' ∧ c ≠ '\r'

theorem cleanStr_spec (d : Char) (s : Str) (h : cleanStr d s = true) :
    ∀ c ∈ s, c ≠ d ∧ c ≠ '"' ∧ c ≠ '\n' ∧ c ≠ '\r' := by
  unfold cleanStr at h
  rw [List.all_eq_true] at h
  intro c hc
  have h2 := h c hc
  simp only [Bool.not_eq_true', Bool.or_eq_false_iff, decide_eq_false_iff_not] at h2
  exact ⟨h2.1.1.1, h2.1.1.2, h2.1.2, h2.2⟩

theorem contains_eq_false_of_not_mem (s : Str) (x : Char) (h : x ∉ s) :
    s.contains x = false := by
  cases hc : s.contains x with
  | false => rfl
  | true => exact absurd (List.elem_iff.mp hc) h

theorem not_mem_of_spec (s : Str) (x : Char) (h : ∀ c ∈ s, c ≠ x) : x ∉ s :=
  fun hm => h x hm rfl

theorem escape_clean (d : Char) (s : Str) (h : cleanStr d s = true) :
    escapeCSVValue (some s) d false = s := by
  have hspec := cleanStr_spec d s h
  rw [escapeCSVValue_some, if_neg]
  rw [show needsQuoting s d false =
      (s.contains d || s.contains '"' || s.contains '\n' || s.contains '\r') by
    unfold needsQuoting; simp]
  rw [contains_eq_false_of_not_mem s d (not_mem_of_spec s d fun c hc => (hspec c hc).1),
    contains_eq_false_of_not_mem s '"' (not_mem_of_spec s '"' fun c hc => (hspec c hc).2.1),
    contains_eq_false_of_not_mem s '\n' (not_mem_of_spec s '\n' fun c hc => (hspec c hc).2.2.1),
    contains_eq_false_of_not_mem s '\r' (not_mem_of_spec s '\r' fun c hc => (hspec c hc).2.2.2)]
  simp

theorem escape_clean_val (v : Option Str) (h : cleanStr ',' (coerceVal v) = true) :
    escapeCSVValue v ',' false = coerceVal v := by
  match v with
  | none => rfl
  | some s => exact escape_clean ',' s h

theorem scan_append_clean (t : Bool) :
    ∀ (f : Str) (cs : Str) (st : TState),
      st.skip = false → st.inQuotes = false → (∀ c ∈ f, clean4 c) →
      scan ',' t (f ++ cs) st = scan ',' t cs { st with field := st.field ++ f } := by
  intro f
  induction f with
  | nil =>
    intro cs st _ _ _
    simp
  | cons c f ih =>
    intro cs st hs hin hclean
    obtain ⟨hc1, hc2, hc3, hc4⟩ := hclean c (List.mem_cons_self c f)
    rw [List.cons_append, scan_cons_other ',' t c (f ++ cs) st hs hc2
      (fun hc => hc1 hc.1) (fun hc => hc3 hc.1) (fun hc => hc4 hc.1)]
    rw [ih cs { st with field := st.field ++ [c] } hs hin
      (fun x hx => hclean x (List.mem_cons.mpr (Or.inr hx)))]
    simp

theorem scan_fields (t : Bool) :
    ∀ (fsInit : List Str) (fLast : Str) (cs : Str) (st : TState),
      st.skip = false → st.inQuotes = false → st.field = [] →
      (∀ f ∈ fsInit, ∀ c ∈ f, clean4 c) → (∀ c ∈ fLast, clean4 c) →
      scan ',' t (joinSep ',' (fsInit ++ [fLast]) ++ cs) st =
        scan ',' t cs
          { st with field := fLast, row := st.row ++ fsInit.map (storeField t) } := by
  intro fsInit
  induction fsInit with
  | nil =>
    intro fLast cs st hs hin hf _ hclean
    show scan ',' t (joinSep ',' [fLast] ++ cs) st = _
    rw [show joinSep ',' [fLast] = fLast from rfl,
      scan_append_clean t fLast cs st hs hin hclean]
    rw [hf]
    simp
  | cons f fsInit ih =>
    intro fLast cs st hs hin hf hcleanInit hclean
    rw [List.cons_append, joinSep_cons ',' f (fsInit ++ [fLast]) (by simp)]
    rw [show (f ++ ',' :: joinSep ',' (fsInit ++ [fLast])) ++ cs =
      f ++ (',' :: (joinSep ',' (fsInit ++ [fLast]) ++ cs)) by simp]
    rw [scan_append_clean t f _ st hs hin
      (fun c hc => hcleanInit f (List.mem_cons_self f fsInit) c hc)]
    rw [scan_cons_delim ',' t _ { st with field := st.field ++ f } hs (by decide) hin]
    rw [ih fLast cs (pushField t { st with field := st.field ++ f }) hs hin rfl
      (fun g hg c hc => hcleanInit g (List.mem_cons.mpr (Or.inr hg)) c hc) hclean]
    unfold pushField
    rw [hf]
    simp

theorem scan_doc (t : Bool) :
    ∀ (fss : List (List Str)) (lastInit : List Str) (lastF : Str)
      (rows0 : List (List Str)),
      (∀ fs ∈ fss, fs ≠ [] ∧ ∀ f ∈ fs, ∀ c ∈ f, clean4 c) →
      (∀ f ∈ lastInit, ∀ c ∈ f, clean4 c) → (∀ c ∈ lastF, clean4 c) →
      scan ',' t (joinSep '\n' ((fss ++ [lastInit ++ [lastF]]).map (joinSep ',')))
          ⟨false, false, [], [], rows0⟩ =
        ⟨false, false, lastF, lastInit.map (storeField t),
          rows0 ++ fss.map (fun fs => fs.map (storeField t))⟩ := by
  intro fss
  induction fss with
  | nil =>
    intro lastInit lastF rows0 _ hcleanInit hclean
    rw [show (([] : List (List Str)) ++ [lastInit ++ [lastF]]).map (joinSep ',') =
      [joinSep ',' (lastInit ++ [lastF])] from rfl]
    rw [show joinSep '\n' [joinSep ',' (lastInit ++ [lastF])] =
      joinSep ',' (lastInit ++ [lastF]) ++ [] by simp [joinSep]]
    rw [scan_fields t lastInit lastF [] _ rfl rfl rfl hcleanInit hclean, scan_nil]
    simp
  | cons fs fss ih =>
    intro lastInit lastF rows0 hfss hcleanInit hclean
    obtain ⟨hfs_ne, hfs_clean⟩ := hfss fs (List.mem_cons_self fs fss)
    rcases List.eq_nil_or_concat fs with rfl | ⟨fsI, fsL, hfs⟩
    · exact absurd rfl hfs_ne
    · rw [List.concat_eq_append] at hfs
      rw [List.cons_append, List.map_cons,
        joinSep_cons '\n' (joinSep ',' fs) ((fss ++ [lastInit ++ [lastF]]).map (joinSep ','))
          (by simp)]
      rw [hfs]
      rw [show (joinSep ',' (fsI ++ [fsL]) ++ '\n' ::
          joinSep '\n' ((fss ++ [lastInit ++ [lastF]]).map (joinSep ','))) =
        joinSep ',' (fsI ++ [fsL]) ++ ('\n' ::
          joinSep '\n' ((fss ++ [lastInit ++ [lastF]]).map (joinSep ','))) from rfl]
      rw [scan_fields t fsI fsL _ _ rfl rfl rfl
        (fun f hf c hc => hfs_clean f (hfs ▸ List.mem_append.mpr (Or.inl hf)) c hc)
        (fun c hc => hfs_clean fsL (hfs ▸ List.mem_append.mpr (Or.inr (by simp))) c hc)]
      rw [scan_cons_newline ',' t _ _ rfl (by decide) rfl]
      rw [show pushRow t { (⟨false, false, [], [], rows0⟩ : TState) with
          field := fsL, row := [] ++ fsI.map (storeField t) } =
        ⟨false, false, [], [], rows0 ++ [fsI.map (storeField t) ++ [storeField t fsL]]⟩ by
        simp [pushRow]]
      rw [ih lastInit lastF _ (fun g hg => hfss g (List.mem_cons.mpr (Or.inr hg)))
        hcleanInit hclean]
      simp [List.map_append]

theorem tokenize_doc (t : Bool) (fss : List (List Str)) (lastInit : List Str) (lastF : Str)
    (hfss : ∀ fs ∈ fss, fs ≠ [] ∧ ∀ f ∈ fs, ∀ c ∈ f, clean4 c)
    (hcleanInit : ∀ f ∈ lastInit, ∀ c ∈ f, clean4 c) (hclean : ∀ c ∈ lastF, clean4 c)
    (hnb : lastInit ≠ [] ∨ lastF ≠ []) :
    tokenizeCSV ',' t (joinSep '\n' ((fss ++ [lastInit ++ [lastF]]).map (joinSep ','))) =
      (fss ++ [lastInit ++ [lastF]]).map (fun fs => fs.map (storeField t)) := by
  unfold tokenizeCSV
  rw [show (initState : TState) = ⟨false, false, [], [], []⟩ from rfl]
  rw [scan_doc t fss lastInit lastF [] hfss hcleanInit hclean]
  unfold flushScan
  rw [if_neg]
  · simp [List.map_append]
  · rcases hnb with hnb | hnb
    · intro hcontra
      rw [Bool.and_eq_true] at hcontra
      have := List.isEmpty_iff.mp hcontra.2
      exact hnb (by simpa using this)
    · intro hcontra
      rw [Bool.and_eq_true] at hcontra
      exact hnb (List.isEmpty_iff.mp hcontra.1)

theorem zipPad_self_map (g : Str → Str) :
    ∀ (hs : List Str), zipPad hs (hs.map g) = hs.map (fun h => (h, g h)) := by
  intro hs
  induction hs with
  | nil => rfl
  | cons h t ih => simp [zipPad, ih]

/-- The raw projection of a row onto the column list. -/
def projFields (columns : List Str) (r : RowIn) : List Str :=
  columns.map fun c => coerceVal (r c)

/-- The projection of a row onto the column list, as a parsed `Row`
(name-value mapping built like `Object.fromEntries`). -/
def projRow (columns : List Str) (r : RowIn) : Row :=
  fromEntries (columns.map fun c => (c, coerceVal (r c)))

theorem createCSV_clean (data : List RowIn) (columns : List Str)
    (hcols : ∀ c ∈ columns, cleanStr ',' c = true)
    (hvals : ∀ r ∈ data, ∀ c ∈ columns, cleanStr ',' (coerceVal (r c)) = true) :
    createCSV data columns ',' true false =
      joinSep '\n' ((columns :: data.map (projFields columns)).map (joinSep ',')) := by
  have hheader : (columns.map fun c => escapeCSVValue (some c) ',' false) = columns := by
    have h1 := List.map_congr_left
      (f := fun c => escapeCSVValue (some c) ',' false) (g := fun c => c) (l := columns)
      (fun c hc => escape_clean ',' c (hcols c hc))
    rw [List.map_id'] at h1
    exact h1
  have hlines : data.map (fun r => joinSep ','
      (columns.map fun c => escapeCSVValue (r c) ',' false)) =
      (data.map (projFields columns)).map (joinSep ',') := by
    rw [List.map_map]
    exact List.map_congr_left (fun r hr => by
      show joinSep ',' (columns.map fun c => escapeCSVValue (r c) ',' false) =
        joinSep ',' (projFields columns r)
      exact congrArg (joinSep ',')
        (List.map_congr_left fun c hc => escape_clean_val (r c) (hvals r hr c hc)))
  calc createCSV data columns ',' true false
      = joinSep '\n' (joinSep ',' (columns.map fun c => escapeCSVValue (some c) ',' false) ::
          data.map (fun r => joinSep ','
            (columns.map fun c => escapeCSVValue (r c) ',' false))) := rfl
    _ = joinSep '\n' ((columns :: data.map (projFields columns)).map (joinSep ',')) := by
        rw [hheader, hlines, ← List.map_cons]

theorem tokenize_single_line (t : Bool) (fsInit : List Str) (fLast : Str)
    (hcleanI : ∀ f ∈ fsInit, ∀ c ∈ f, clean4 c) (hcleanL : ∀ c ∈ fLast, clean4 c) :
    (tokenizeCSV ',' t (joinSep ',' (fsInit ++ [fLast]))).length ≤ 1 := by
  unfold tokenizeCSV
  rw [show joinSep ',' (fsInit ++ [fLast]) = joinSep ',' (fsInit ++ [fLast]) ++ [] by simp]
  rw [scan_fields t fsInit fLast [] initState rfl rfl rfl hcleanI hcleanL, scan_nil]
  unfold flushScan
  split <;> simp [initState]

/-- Escaping with the default options (delimiter `,`, `quoteAll` off). -/
def escDefault (s : Str) : Str := escapeCSVValue (some s) ',' false

theorem escape_coerce (v : Option Str) :
    escapeCSVValue v ',' false = escDefault (coerceVal v) := by
  cases v <;> rfl

theorem not_mem_of_contains_false (s : Str) (x : Char) (h : s.contains x = false) :
    x ∉ s := by
  intro hm
  rw [show List.contains s x = List.elem x s from rfl, List.elem_eq_true_of_mem hm] at h
  exact Bool.true_eq_false.mp h

theorem clean_of_not_needsQuoting (v : Str) (h : needsQuoting v ',' false = false) :
    ∀ c ∈ v, clean4 c := by
  unfold needsQuoting at h
  simp only [Bool.or_eq_false_iff] at h
  intro c hc
  refine ⟨?_, ?_, ?_, ?_⟩
  · intro he; exact not_mem_of_contains_false v ',' h.1.1.1.2 (he ▸ hc)
  · intro he; exact not_mem_of_contains_false v '"' h.1.1.2 (he ▸ hc)
  · intro he; exact not_mem_of_contains_false v '\n' h.1.2 (he ▸ hc)
  · intro he; exact not_mem_of_contains_false v '\r' h.2 (he ▸ hc)

theorem scan_double (t : Bool) :
    ∀ (v : Str) (cs : Str) (st : TState), st.skip = false → st.inQuotes = true →
      scan ',' t (doubleQuotes v ++ cs) st =
        scan ',' t cs { st with field := st.field ++ v } := by
  intro v
  induction v with
  | nil =>
    intro cs st _ _
    simp [doubleQuotes]
  | cons c v ih =>
    intro cs st hs hin
    by_cases hc : c = '"'
    · subst hc
      rw [show doubleQuotes ('"' :: v) = '"' :: '"' :: doubleQuotes v by simp [doubleQuotes]]
      simp only [List.cons_append]
      rw [scan_cons_quote_esc ',' t ('"' :: (doubleQuotes v ++ cs)) st hs hin (by simp)]
      rw [scan_cons_skip ',' t '"' (doubleQuotes v ++ cs) _ rfl]
      rw [ih cs { st with field := st.field ++ ['"'], skip := false } rfl hin]
      simp [hs]
    · rw [show doubleQuotes (c :: v) = c :: doubleQuotes v by simp [doubleQuotes, hc]]
      simp only [List.cons_append]
      rw [scan_cons_quoted ',' t c (doubleQuotes v ++ cs) st hs hc hin]
      rw [ih cs { st with field := st.field ++ [c] } hs hin]
      simp

theorem scan_escField (t : Bool) (v : Str) (cs : Str) (st : TState)
    (hs : st.skip = false) (hin : st.inQuotes = false) (hcs : cs.head? ≠ some '"') :
    scan ',' t (escDefault v ++ cs) st = scan ',' t cs { st with field := st.field ++ v } := by
  obtain ⟨sk, inq, fld, row, rows⟩ := st
  simp only at hs hin
  subst hs
  subst hin
  unfold escDefault
  rw [escapeCSVValue_some]
  by_cases hn : needsQuoting v ',' false = true
  · rw [if_pos hn]
    rw [show ('"' :: doubleQuotes v ++ ['"']) ++ cs =
      '"' :: (doubleQuotes v ++ ('"' :: cs)) by simp]
    rw [scan_cons_quote_open ',' t _ ⟨false, false, fld, row, rows⟩ rfl rfl]
    rw [scan_double t v ('"' :: cs) ⟨false, true, fld, row, rows⟩ rfl rfl]
    rw [scan_cons_quote_close ',' t cs ⟨false, true, fld ++ v, row, rows⟩ rfl rfl hcs]
  · have h' : needsQuoting v ',' false = false := by simpa using hn
    rw [if_neg hn]
    exact scan_append_clean t v cs ⟨false, false, fld, row, rows⟩ rfl rfl
      (clean_of_not_needsQuoting v h')

theorem scan_line_esc (t : Bool) :
    ∀ (vsInit : List Str) (vLast : Str) (cs : Str) (st : TState),
      st.skip = false → st.inQuotes = false → st.field = [] → cs.head? ≠ some '"' →
      scan ',' t (joinSep ',' ((vsInit ++ [vLast]).map escDefault) ++ cs) st =
        scan ',' t cs
          { st with field := vLast, row := st.row ++ vsInit.map (storeField t) } := by
  intro vsInit
  induction vsInit with
  | nil =>
    intro vLast cs st hs hin hf hcs
    rw [show ((([] : List Str) ++ [vLast]).map escDefault) = [escDefault vLast] from rfl]
    rw [show joinSep ',' [escDefault vLast] = escDefault vLast from rfl]
    rw [scan_escField t vLast cs st hs hin hcs]
    rw [hf]
    simp
  | cons v vs ih =>
    intro vLast cs st hs hin hf hcs
    simp only [List.cons_append, List.map_cons]
    rw [joinSep_cons ',' (escDefault v) ((vs ++ [vLast]).map escDefault) (by simp)]
    rw [show (escDefault v ++ ',' :: joinSep ',' ((vs ++ [vLast]).map escDefault)) ++ cs =
      escDefault v ++ (',' :: (joinSep ',' ((vs ++ [vLast]).map escDefault) ++ cs)) by simp]
    rw [scan_escField t v _ st hs hin (by simp)]
    rw [scan_cons_delim ',' t _ { st with field := st.field ++ v } hs (by decide) hin]
    rw [ih vLast cs (pushField t { st with field := st.field ++ v }) hs hin rfl hcs]
    unfold pushField
    rw [hf]
    simp

theorem scan_doc_esc (t : Bool) :
    ∀ (fss : List (List Str)) (lastInit : List Str) (lastF : Str)
      (rows0 : List (List Str)),
      (∀ fs ∈ fss, fs ≠ []) →
      scan ',' t (joinSep '\n' ((fss ++ [lastInit ++ [lastF]]).map
          (fun fs => joinSep ',' (fs.map escDefault))))
          ⟨false, false, [], [], rows0⟩ =
        ⟨false, false, lastF, lastInit.map (storeField t),
          rows0 ++ fss.map (fun fs => fs.map (storeField t))⟩ := by
  intro fss
  induction fss with
  | nil =>
    intro lastInit lastF rows0 _
    rw [show (([] : List (List Str)) ++ [lastInit ++ [lastF]]).map
        (fun fs => joinSep ',' (fs.map escDefault)) =
      [joinSep ',' ((lastInit ++ [lastF]).map escDefault)] from rfl]
    rw [show joinSep '\n' [joinSep ',' ((lastInit ++ [lastF]).map escDefault)] =
      joinSep ',' ((lastInit ++ [lastF]).map escDefault) ++ [] by simp [joinSep]]
    rw [scan_line_esc t lastInit lastF [] _ rfl rfl rfl (by simp), scan_nil]
    simp
  | cons fs fss ih =>
    intro lastInit lastF rows0 hfss
    have hfs_ne := hfss fs (List.mem_cons_self fs fss)
    rcases List.eq_nil_or_concat fs with rfl | ⟨fsI, fsL, hfs⟩
    · exact absurd rfl hfs_ne
    · rw [List.concat_eq_append] at hfs
      simp only [List.cons_append, List.map_cons]
      rw [joinSep_cons '\n' _ ((fss ++ [lastInit ++ [lastF]]).map
          (fun fs => joinSep ',' (fs.map escDefault))) (by simp)]
      rw [hfs]
      rw [show (joinSep ',' ((fsI ++ [fsL]).map escDefault) ++ '\n' ::
          joinSep '\n' ((fss ++ [lastInit ++ [lastF]]).map
            (fun fs => joinSep ',' (fs.map escDefault)))) =
        joinSep ',' ((fsI ++ [fsL]).map escDefault) ++ ('\n' ::
          joinSep '\n' ((fss ++ [lastInit ++ [lastF]]).map
            (fun fs => joinSep ',' (fs.map escDefault)))) from rfl]
      rw [scan_line_esc t fsI fsL _ _ rfl rfl rfl (by simp)]
      rw [scan_cons_newline ',' t _ _ rfl (by decide) rfl]
      rw [show pushRow t { (⟨false, false, [], [], rows0⟩ : TState) with
          field := fsL, row := [] ++ fsI.map (storeField t) } =
        ⟨false, false, [], [], rows0 ++ [fsI.map (storeField t) ++ [storeField t fsL]]⟩ by
        simp [pushRow]]
      rw [ih lastInit lastF _ (fun g hg => hfss g (List.mem_cons.mpr (Or.inr hg)))]
      simp [List.map_append]

theorem tokenize_doc_esc (t : Bool) (fss : List (List Str)) (lastInit : List Str)
    (lastF : Str) (hfss : ∀ fs ∈ fss, fs ≠ [])
    (hnb : lastInit ≠ [] ∨ lastF ≠ []) :
    tokenizeCSV ',' t (joinSep '\n' ((fss ++ [lastInit ++ [lastF]]).map
        (fun fs => joinSep ',' (fs.map escDefault)))) =
      (fss ++ [lastInit ++ [lastF]]).map (fun fs => fs.map (storeField t)) := by
  unfold tokenizeCSV
  rw [show (initState : TState) = ⟨false, false, [], [], []⟩ from rfl]
  rw [scan_doc_esc t fss lastInit lastF [] hfss]
  unfold flushScan
  rw [if_neg]
  · simp [List.map_append]
  · rcases hnb with hnb | hnb
    · intro hcontra
      rw [Bool.and_eq_true] at hcontra
      have := List.isEmpty_iff.mp hcontra.2
      exact hnb (by simpa using this)
    · intro hcontra
      rw [Bool.and_eq_true] at hcontra
      exact hnb (List.isEmpty_iff.mp hcontra.1)

theorem tokenize_single_line_esc (t : Bool) (vsInit : List Str) (vLast : Str) :
    (tokenizeCSV ',' t (joinSep ',' ((vsInit ++ [vLast]).map escDefault))).length ≤ 1 := by
  unfold tokenizeCSV
  rw [show joinSep ',' ((vsInit ++ [vLast]).map escDefault) =
    joinSep ',' ((vsInit ++ [vLast]).map escDefault) ++ [] by simp]
  rw [scan_line_esc t vsInit vLast [] initState rfl rfl rfl (by simp), scan_nil]
  unfold flushScan
  split <;> simp [initState]

theorem mem_doubleQuotes (v : Str) (c : Char) (h : c ∈ v) : c ∈ doubleQuotes v := by
  induction v with
  | nil => simp at h
  | cons a l ih =>
    show c ∈ (if a = '"' then '"' :: '"' :: doubleQuotes l else a :: doubleQuotes l)
    rcases List.mem_cons.mp h with rfl | h
    · by_cases ha : c = '"'
      · rw [if_pos ha, ha]
        simp
      · rw [if_neg ha]
        simp
    · by_cases ha : a = '"'
      · rw [if_pos ha]
        exact List.mem_cons.mpr (Or.inr (List.mem_cons.mpr (Or.inr (ih h))))
      · rw [if_neg ha]
        exact List.mem_cons.mpr (Or.inr (ih h))

theorem mem_escDefault (v : Str) (c : Char) (h : c ∈ v) : c ∈ escDefault v := by
  unfold escDefault
  rw [escapeCSVValue_some]
  split
  · exact List.mem_cons.mpr (Or.inr (List.mem_append.mpr (Or.inl (mem_doubleQuotes v c h))))
  · exact h

theorem createCSV_esc (data : List RowIn) (columns : List Str) :
    createCSV data columns ',' true false =
      joinSep '\n' ((columns :: data.map (projFields columns)).map
        (fun fs => joinSep ',' (fs.map escDefault))) := by
  calc createCSV data columns ',' true false
      = joinSep '\n' (joinSep ',' (columns.map fun c => escapeCSVValue (some c) ',' false) ::
          data.map (fun r => joinSep ','
            (columns.map fun c => escapeCSVValue (r c) ',' false))) := rfl
    _ = joinSep '\n' ((columns :: data.map (projFields columns)).map
          (fun fs => joinSep ',' (fs.map escDefault))) := by
        simp only [List.map_cons]
        congr 1
        congr 1
        rw [List.map_map]
        refine List.map_congr_left fun r hr => ?_
        show joinSep ',' (columns.map fun c => escapeCSVValue (r c) ',' false) =
          joinSep ',' ((projFields columns r).map escDefault)
        unfold projFields
        rw [List.map_map]
        exact congrArg (joinSep ',')
          (List.map_congr_left fun c hc => escape_coerce (r c))

/-! ### Claim C1: serialize-then-parse round trip -/

/-- C1 counterexample: the field `" x "` contains none of the special
characters (nor a null byte), yet the round trip trims it to `"x"`, so the
claimed round trip fails. -/
theorem C1_counterexample :
    cleanStr ',' (strL " x ") = true ∧
    parseCSV (some (createCSV [fun _ => some (strL " x ")] [strL "a"] ',' true false))
        ',' true ≠
      [fun _ => some (strL " x ")].map (projRow [strL "a"]) := by
  exact ⟨by decide, by decide⟩

/-- C1 amended: the serialize-then-parse round trip holds for trim-stable,
non-blank data: if every column name and every projected field value is
unchanged by whitespace trimming and every row has at least one non-empty
projected field, then parsing the `createCSV` output (default options on
both sides) yields exactly the rows projected onto the columns,
field-for-field — including fields and column names containing the
delimiter, quote characters, `\n` or `\r`, which the serializer quotes and
the parser unquotes exactly. -/
theorem C1_round_trip :
    ∀ (data : List RowIn) (columns : List Str),
      (∀ c ∈ columns, jsTrim c = c) →
      (∀ r ∈ data,
        (∀ c ∈ columns, jsTrim (coerceVal (r c)) = coerceVal (r c)) ∧
        (∃ c ∈ columns, coerceVal (r c) ≠ [])) →
      parseCSV (some (createCSV data columns ',' true false)) ',' true =
        data.map (projRow columns) := by
  intro data columns hcols hdata
  rw [createCSV_esc data columns]
  rcases List.eq_nil_or_concat data with rfl | ⟨dataInit, rLast, hdataeq⟩
  · simp only [List.map_nil]
    rcases List.eq_nil_or_concat columns with rfl | ⟨colInit, cLast, hcolseq⟩
    · decide
    · rw [List.concat_eq_append] at hcolseq
      subst hcolseq
      apply parseCSV_of_short
      rw [show joinSep '\n' (List.map (fun fs => joinSep ',' (fs.map escDefault))
          [colInit ++ [cLast]]) =
        joinSep ',' ((colInit ++ [cLast]).map escDefault) from rfl]
      exact tokenize_single_line_esc true colInit cLast
  · rw [List.concat_eq_append] at hdataeq
    subst hdataeq
    have hrLast : rLast ∈ dataInit ++ [rLast] := List.mem_append.mpr (Or.inr (by simp))
    obtain ⟨hcleanLast, hex⟩ := hdata rLast hrLast
    obtain ⟨c0, hc0mem, hc0ne⟩ := hex
    have hcolsne : columns ≠ [] := by
      intro h
      rw [h] at hc0mem
      simp at hc0mem
    rcases List.eq_nil_or_concat columns with hcn | ⟨colInit, cLast, hcolseq⟩
    · exact absurd hcn hcolsne
    · rw [List.concat_eq_append] at hcolseq
      have hproj : projFields columns rLast =
          colInit.map (fun c => coerceVal (rLast c)) ++ [coerceVal (rLast cLast)] := by
        unfold projFields
        rw [hcolseq, List.map_append]
        rfl
      have hlisteq : columns :: (dataInit ++ [rLast]).map (projFields columns) =
          (columns :: dataInit.map (projFields columns)) ++
            [colInit.map (fun c => coerceVal (rLast c)) ++ [coerceVal (rLast cLast)]] := by
        rw [List.map_append, ← hproj]
        rfl
      have hfss : ∀ fs ∈ columns :: dataInit.map (projFields columns), fs ≠ [] := by
        intro fs hfs
        rcases List.mem_cons.mp hfs with rfl | hfs
        · exact hcolsne
        · rcases List.mem_map.mp hfs with ⟨r, hr, rfl⟩
          intro h
          unfold projFields at h
          rw [List.map_eq_nil_iff] at h
          exact hcolsne h
      have hnb : colInit.map (fun c => coerceVal (rLast c)) ≠ [] ∨
          coerceVal (rLast cLast) ≠ [] := by
        cases colInit with
        | nil =>
          right
          have hc0eq : c0 = cLast := by
            rw [hcolseq] at hc0mem
            simpa using hc0mem
          rwa [hc0eq] at hc0ne
        | cons x xs => exact Or.inl (by simp)
      have hstab : ((columns :: dataInit.map (projFields columns)) ++
            [colInit.map (fun c => coerceVal (rLast c)) ++ [coerceVal (rLast cLast)]]).map
            (fun fs => fs.map (storeField true)) =
          (columns :: dataInit.map (projFields columns)) ++
            [colInit.map (fun c => coerceVal (rLast c)) ++ [coerceVal (rLast cLast)]] := by
        have hrow : ∀ r ∈ dataInit ++ [rLast],
            (projFields columns r).map (storeField true) = projFields columns r := by
          intro r hr
          unfold projFields
          rw [List.map_map]
          exact List.map_congr_left (fun c hc => (hdata r hr).1 c hc)
        have hmem : ∀ fs ∈ (columns :: dataInit.map (projFields columns)) ++
              [colInit.map (fun c => coerceVal (rLast c)) ++ [coerceVal (rLast cLast)]],
            fs.map (storeField true) = fs := by
          intro fs hfs
          rcases List.mem_append.mp hfs with hfs | hfs
          · rcases List.mem_cons.mp hfs with rfl | hfs
            · have h1 := List.map_congr_left
                (f := storeField true) (g := fun c => c) (l := fs)
                (fun c hc => hcols c hc)
              rw [List.map_id'] at h1
              exact h1
            · rcases List.mem_map.mp hfs with ⟨r, hr, rfl⟩
              exact hrow r (List.mem_append.mpr (Or.inl hr))
          · have hfs' : fs = colInit.map (fun c => coerceVal (rLast c)) ++
                [coerceVal (rLast cLast)] := by simpa using hfs
            rw [hfs', ← hproj]
            exact hrow rLast hrLast
        have h2 := List.map_congr_left
          (f := fun fs => List.map (storeField true) fs) (g := fun fs => fs) hmem
        rw [List.map_id'] at h2
        exact h2
      have hv : jsTrim (coerceVal (rLast c0)) = coerceVal (rLast c0) :=
        hcleanLast c0 hc0mem
      obtain ⟨vh, vt, hveq⟩ : ∃ vh vt, coerceVal (rLast c0) = vh :: vt := by
        cases hvv : coerceVal (rLast c0) with
        | nil => exact absurd hvv hc0ne
        | cons a l => exact ⟨a, l, rfl⟩
      have hnw : isJSWhitespace vh = false := by
        refine jsTrim_head_not_ws vh vt ?_
        rw [← hveq]
        exact hv
      have hv_mem : coerceVal (rLast c0) ∈ projFields columns rLast := by
        unfold projFields
        exact List.mem_map_of_mem _ hc0mem
      have hch : vh ∈ joinSep '\n'
          (((columns :: dataInit.map (projFields columns)) ++
            [colInit.map (fun c => coerceVal (rLast c)) ++ [coerceVal (rLast cLast)]]).map
            (fun fs => joinSep ',' (fs.map escDefault))) := by
        refine joinSep_mem '\n' _
          (joinSep ',' ((projFields columns rLast).map escDefault)) ?_ vh ?_
        · rw [hproj]
          exact List.mem_map_of_mem _ (List.mem_append.mpr (Or.inr (by simp)))
        · refine joinSep_mem ',' _ (escDefault (coerceVal (rLast c0))) ?_ vh ?_
          · exact List.mem_map_of_mem _ hv_mem
          · refine mem_escDefault _ vh ?_
            rw [hveq]
            exact List.mem_cons_self vh vt
      have hTne : ¬ jsTrim (joinSep '\n'
          (((columns :: dataInit.map (projFields columns)) ++
            [colInit.map (fun c => coerceVal (rLast c)) ++ [coerceVal (rLast cLast)]]).map
            (fun fs => joinSep ',' (fs.map escDefault)))) = [] := by
        intro h0
        have hws := jsTrim_all_ws _ h0 vh hch
        rw [hnw] at hws
        exact Bool.false_ne_true hws
      have hkeep : ∀ row ∈ (dataInit ++ [rLast]).map (projFields columns),
          keepRow row = true := by
        intro row hrow
        rcases List.mem_map.mp hrow with ⟨r, hr, rfl⟩
        obtain ⟨hst, c1, hc1, hne1⟩ := hdata r hr
        unfold keepRow
        rw [List.any_eq_true]
        refine ⟨coerceVal (r c1), ?_, ?_⟩
        · unfold projFields
          exact List.mem_map_of_mem _ hc1
        · rw [hst c1 hc1]
          cases hvv : coerceVal (r c1) with
          | nil => exact absurd hvv hne1
          | cons a l => simp
      rw [hlisteq]
      simp only [parseCSV]
      rw [if_neg hTne]
      rw [tokenize_doc_esc true (columns :: dataInit.map (projFields columns))
        (colInit.map (fun c => coerceVal (rLast c))) (coerceVal (rLast cLast))
        hfss hnb]
      rw [hstab, ← hlisteq]
      unfold assembleTable
      rw [if_neg (by simp only [List.length_cons, List.length_map, List.length_append,
        List.length_nil]; omega)]
      simp only [List.headD_cons, List.drop_succ_cons, List.drop_zero]
      rw [List.filter_eq_self.mpr hkeep, List.map_map]
      refine List.map_congr_left (fun r hr => ?_)
      show buildRow columns (projFields columns r) = projRow columns r
      unfold buildRow projFields projRow
      exact congrArg fromEntries (zipPad_self_map (fun c => coerceVal (r c)) columns)

/-- A concrete input row for the C1 witness: its first column name and its
`na,me` value contain delimiters and quote characters, exercising the quoted
regime of the round trip. -/
def w1row : RowIn := fun c =>
  if c = strL "na,me" then some (strL "Jo, \"hn\"")
  else if c = strL "age" then some (strL "30")
  else none

/-- Witness for C1 on a concrete table whose first column name and first
field value need quoting. -/
theorem C1_witness :
    (∀ c ∈ [strL "na,me", strL "age"], jsTrim c = c) ∧
    (∀ r ∈ [w1row],
      (∀ c ∈ [strL "na,me", strL "age"],
        jsTrim (coerceVal (r c)) = coerceVal (r c)) ∧
      (∃ c ∈ [strL "na,me", strL "age"], coerceVal (r c) ≠ [])) ∧
    parseCSV (some (createCSV [w1row] [strL "na,me", strL "age"] ',' true false)) ',' true =
      [w1row].map (projRow [strL "na,me", strL "age"]) :=
  ⟨by decide,
    by
      intro r hr
      have hreq : r = w1row := by simpa using hr
      subst hreq
      exact ⟨by decide, by decide⟩,
    C1_round_trip [w1row] [strL "na,me", strL "age"] (by decide)
      (by
        intro r hr
        have hreq : r = w1row := by simpa using hr
        subst hreq
        exact ⟨by decide, by decide⟩)⟩
